import Mathlib

/-!
Verification of the city-coordinates-lookup data processor (src/main.rs).

The program is a linear pipeline: a size guard on each input file, a loader
that collapses the country catalog into a map from id to code, a loader for
the state+city catalog, a grouping of states by country id, and a writer that
serializes each group to `{country_id}_{code}.json` with progress reporting.

Shallow embedding conventions:
- Rust `HashMap` values are association lists with insert-or-replace
  (`hmInsert`) and insert-or-push (`groupInsert`) mirroring `insert` and
  `entry(..).or_default().push(..)`.  Lookup (`hmFind`) returns the first
  entry with the key, matching a map with unique keys.
- The filesystem is a list of (path, content) pairs with overwrite-on-write
  semantics; file content is modelled at the JSON-value level (the byte
  rendering by serde_json is a pure function of that value).
- u32 and u64 quantities are Nat; JSON numbers are Int so that type and
  range mismatches during parsing are expressible.
- Fallible operations return `Except ProcessingError` or carry an
  `Option ProcessingError` alongside the effects that happened before the
  failure.
-/

/-- JSON values, the domain of serde_json in the model. -/
inductive JsonValue where
  | null : JsonValue
  | bool (b : Bool) : JsonValue
  | num (n : Int) : JsonValue
  | str (s : String) : JsonValue
  | arr (xs : List JsonValue) : JsonValue
  | obj (fields : List (String × JsonValue)) : JsonValue
deriving Repr

/-- `struct Country { id: u32, code: String }` (field `iso2` in the JSON). -/
structure Country where
  id : Nat
  code : String
deriving Repr, DecidableEq

/-- `struct City { id, name, latitude?, longitude? }`. -/
structure City where
  id : Nat
  name : String
  latitude : Option String
  longitude : Option String
deriving Repr, DecidableEq

/-- `struct State { id, country_id, name, state_code?, latitude?, longitude?, cities }`. -/
structure State where
  id : Nat
  country_id : Nat
  name : String
  state_code : Option String
  latitude : Option String
  longitude : Option String
  cities : List City
deriving Repr, DecidableEq

/-- `enum ProcessingError { Io(..), Json(..), FileTooLarge { size, max_size } }`.
The wrapped system/serde payloads carry no behavior the spec depends on. -/
inductive ProcessingError where
  | Io : ProcessingError
  | Json : ProcessingError
  | FileTooLarge (size : Nat) (max_size : Nat) : ProcessingError
deriving Repr, DecidableEq

/-- `const MAX_FILE_SIZE: u64 = 100 * 1024 * 1024`. -/
def MAX_FILE_SIZE : Nat := 100 * 1024 * 1024

/-- `fn validate_file_size(path: &Path) -> Result<()>`.
`fs::metadata` is modelled by its outcome: `none` when the stat fails
(nonexistent file), `some size` otherwise. -/
def validate_file_size (metadata : Option Nat) : Except ProcessingError Unit :=
  match metadata with
  | none => Except.error ProcessingError.Io
  | some size =>
      if size > MAX_FILE_SIZE then
        Except.error (ProcessingError.FileTooLarge size MAX_FILE_SIZE)
      else
        Except.ok ()

/-- First entry with the given key, as `HashMap::get` on a map whose keys are
unique. -/
def hmFind {α : Type} (m : List (Nat × α)) (k : Nat) : Option α :=
  (m.find? (fun p => p.1 == k)).map (fun p => p.2)

/-- `HashMap::insert`: replace the entry if the key is present, append it
otherwise. -/
def hmInsert {α : Type} (m : List (Nat × α)) (k : Nat) (v : α) : List (Nat × α) :=
  if m.any (fun p => p.1 == k) then
    m.map (fun p => if p.1 == k then (k, v) else p)
  else
    m ++ [(k, v)]

/-- The map-building loop of `fn load_countries`: a single forward pass
inserting `(country.id, country.code)` into an initially empty map. -/
def load_countries (countries : List Country) : List (Nat × String) :=
  countries.foldl (fun m c => hmInsert m c.id c.code) []

/-- `by_country.entry(state.country_id).or_default().push(state)`: append to
the existing group, or create a singleton group at the end. -/
def groupInsert (m : List (Nat × List State)) (k : Nat) (s : State) :
    List (Nat × List State) :=
  if m.any (fun p => p.1 == k) then
    m.map (fun p => if p.1 == k then (p.1, p.2 ++ [s]) else p)
  else
    m ++ [(k, [s])]

/-- `fn group_states_by_country(states: Vec<State>) -> HashMap<u32, Vec<State>>`. -/
def group_states_by_country (states : List State) : List (Nat × List State) :=
  states.foldl (fun m s => groupInsert m s.country_id s) []

/-- One decimal digit as a character, for Rust's `{}` formatting of a u32. -/
def digitChar10 (d : Nat) : Char :=
  match d with
  | 0 => '0' | 1 => '1' | 2 => '2' | 3 => '3' | 4 => '4'
  | 5 => '5' | 6 => '6' | 7 => '7' | 8 => '8' | 9 => '9'
  | _ + 10 => '*'

/-- Most-significant-first decimal digits of `n`, with explicit fuel to keep
the recursion structural (any `fuel ≥ n` gives the true digits). -/
def natToDigitsAux : Nat → Nat → List Char
  | 0, _ => []
  | fuel + 1, n =>
      if n = 0 then []
      else natToDigitsAux fuel (n / 10) ++ [digitChar10 (n % 10)]

/-- Decimal rendering of a u32, as produced by Rust's `format!("{}", n)`. -/
def natToString (n : Nat) : String :=
  if n = 0 then "0" else String.mk (natToDigitsAux n n)

/-- The artifact name computed in `write_country_files`:
`format!("{country_id}_{code}.json")` where `code` is the index lookup with
fallback `"XX"` (`country_map.get(country_id).unwrap_or("XX")`). -/
def artifactName (country_map : List (Nat × String)) (country_id : Nat) : String :=
  natToString country_id ++ "_" ++ ((hmFind country_map country_id).getD "XX") ++ ".json"

/-- Serde serialization of a `City` (all four fields always emitted; `None`
becomes JSON null). -/
def serializeCity (c : City) : JsonValue :=
  JsonValue.obj
    [("id", JsonValue.num (Int.ofNat c.id)),
     ("name", JsonValue.str c.name),
     ("latitude", match c.latitude with
                  | none => JsonValue.null
                  | some s => JsonValue.str s),
     ("longitude", match c.longitude with
                   | none => JsonValue.null
                   | some s => JsonValue.str s)]

/-- Serde serialization of a `State`: fields in declaration order, `None`
as null, and — per `#[serde(skip_serializing_if = "Vec::is_empty")]` — the
`cities` key emitted only when the list is non-empty. -/
def serializeState (s : State) : JsonValue :=
  JsonValue.obj
    ([("id", JsonValue.num (Int.ofNat s.id)),
      ("country_id", JsonValue.num (Int.ofNat s.country_id)),
      ("name", JsonValue.str s.name),
      ("state_code", match s.state_code with
                     | none => JsonValue.null
                     | some v => JsonValue.str v),
      ("latitude", match s.latitude with
                   | none => JsonValue.null
                   | some v => JsonValue.str v),
      ("longitude", match s.longitude with
                    | none => JsonValue.null
                    | some v => JsonValue.str v)] ++
     (if s.cities.isEmpty then []
      else [("cities", JsonValue.arr (s.cities.map serializeCity))]))

/-- `serde_json::to_string_pretty(states)` at the value level: the byte
output is a pure rendering of this JSON array. -/
def serializeStates (states : List State) : JsonValue :=
  JsonValue.arr (states.map serializeState)

/-- The keys of a serialized JSON object (empty for non-objects). -/
def jsonKeys (j : JsonValue) : List String :=
  match j with
  | JsonValue.obj fields => fields.map (fun p => p.1)
  | _ => []

/-- The output directory: path → file content, content at the JSON-value
level. -/
abbrev FSState : Type := List (String × JsonValue)

/-- `fs::read`-style lookup in the modelled output directory. -/
def fsFind (fs : FSState) (path : String) : Option JsonValue :=
  (fs.find? (fun p => p.1 == path)).map (fun p => p.2)

/-- `fs::write`: truncating write, overwriting an existing file or creating
a new one. -/
def fsWrite (fs : FSState) (path : String) (content : JsonValue) : FSState :=
  if fs.any (fun p => p.1 == path) then
    fs.map (fun p => if p.1 == path then (path, content) else p)
  else
    fs ++ [(path, content)]

/-- Outcome of the write phase: the directory state after the writes that
happened, the progress percentages printed (one per successful write), and
the error, if any, that aborted the loop. -/
structure WriteOutcome where
  fs : FSState
  progress : List Nat
  err : Option ProcessingError
deriving Repr

/-- The body of the `for (i, (country_id, states)) in by_country.iter().enumerate()`
loop of `write_country_files`: resolve the code, compute the filename,
serialize, write (which may fail, modelled by the `failAt` oracle on paths),
then print the progress `(i + 1) * 100 / total_countries` (truncating Nat
division).  On a write failure the `?` operator aborts the loop, returning
the error; files already written stay written. -/
def writeLoop (groups : List (Nat × List State)) (country_map : List (Nat × String))
    (failAt : String → Bool) (total : Nat) (i : Nat) (fs : FSState)
    (progress : List Nat) : WriteOutcome :=
  match groups with
  | [] => { fs := fs, progress := progress, err := none }
  | (country_id, states) :: rest =>
      let filename := artifactName country_map country_id
      let json := serializeStates states
      if failAt filename then
        { fs := fs, progress := progress, err := some ProcessingError.Io }
      else
        writeLoop rest country_map failAt total (i + 1)
          (fsWrite fs filename json) (progress ++ [(i + 1) * 100 / total])

/-- `fn write_country_files(by_country, country_map, out_dir) -> Result<()>`,
with `out_dir`'s current contents as `fs` and write failures injected by
`failAt`.  `total` is `by_country.len()` and iteration starts at `i = 0`. -/
def write_country_files (by_country : List (Nat × List State))
    (country_map : List (Nat × String)) (failAt : String → Bool)
    (fs : FSState) : WriteOutcome :=
  writeLoop by_country country_map failAt by_country.length 0 fs []

/-- Field lookup in a JSON object, as serde resolves a struct field. -/
def objFind (fields : List (String × JsonValue)) (k : String) : Option JsonValue :=
  (fields.find? (fun p => p.1 == k)).map (fun p => p.2)

/-- serde deserialization of a `u32` field: an integer JSON number within
the u32 range; anything else is a type/range error. -/
def parseU32 (j : JsonValue) : Except ProcessingError Nat :=
  match j with
  | JsonValue.num n =>
      if 0 ≤ n ∧ n < 4294967296 then Except.ok n.toNat
      else Except.error ProcessingError.Json
  | _ => Except.error ProcessingError.Json

/-- serde deserialization of a `String` field. -/
def parseStr (j : JsonValue) : Except ProcessingError String :=
  match j with
  | JsonValue.str s => Except.ok s
  | _ => Except.error ProcessingError.Json

/-- A required struct field: missing is a `missing field` error, present is
parsed by the field parser. -/
def reqField {α : Type} (fields : List (String × JsonValue)) (k : String)
    (p : JsonValue → Except ProcessingError α) : Except ProcessingError α :=
  match objFind fields k with
  | none => Except.error ProcessingError.Json
  | some v => p v

/-- An `#[serde(default)] Option<String>` field: missing or null is `none`,
a string is `some`, anything else a type error. -/
def parseOptString (o : Option JsonValue) : Except ProcessingError (Option String) :=
  match o with
  | none => Except.ok none
  | some JsonValue.null => Except.ok none
  | some (JsonValue.str s) => Except.ok (some s)
  | some _ => Except.error ProcessingError.Json

/-- serde deserialization of a `City` from a JSON value: must be an object;
`id` and `name` are required, `latitude` and `longitude` default to `None`. -/
def parseCity (j : JsonValue) : Except ProcessingError City :=
  match j with
  | JsonValue.obj fields =>
      match reqField fields "id" parseU32, reqField fields "name" parseStr,
            parseOptString (objFind fields "latitude"),
            parseOptString (objFind fields "longitude") with
      | Except.ok id, Except.ok name, Except.ok lat, Except.ok lon =>
          Except.ok { id := id, name := name, latitude := lat, longitude := lon }
      | _, _, _, _ => Except.error ProcessingError.Json
  | _ => Except.error ProcessingError.Json

/-- An `#[serde(default)] Vec<City>` field: missing is the empty vector,
present must be an array whose every element deserializes as a `City`. -/
def parseCities (o : Option JsonValue) : Except ProcessingError (List City) :=
  match o with
  | none => Except.ok []
  | some (JsonValue.arr xs) => xs.mapM parseCity
  | some _ => Except.error ProcessingError.Json

/-- serde deserialization of a `State` from a JSON value: must be an object;
`id`, `country_id`, `name` required, `state_code`/`latitude`/`longitude`
defaulting to `None`, `cities` defaulting to the empty vector. -/
def parseState (j : JsonValue) : Except ProcessingError State :=
  match j with
  | JsonValue.obj fields =>
      match reqField fields "id" parseU32, reqField fields "country_id" parseU32,
            reqField fields "name" parseStr,
            parseOptString (objFind fields "state_code"),
            parseOptString (objFind fields "latitude"),
            parseOptString (objFind fields "longitude"),
            parseCities (objFind fields "cities") with
      | Except.ok id, Except.ok cid, Except.ok name, Except.ok sc,
        Except.ok lat, Except.ok lon, Except.ok cities =>
          Except.ok { id := id, country_id := cid, name := name, state_code := sc,
                      latitude := lat, longitude := lon, cities := cities }
      | _, _, _, _, _, _, _ => Except.error ProcessingError.Json
  | _ => Except.error ProcessingError.Json

/-- `serde_json::from_str::<Vec<State>>`: the document must be an array of
State objects (this is the parse step of `load_states`). -/
def parseStates (j : JsonValue) : Except ProcessingError (List State) :=
  match j with
  | JsonValue.arr xs => xs.mapM parseState
  | _ => Except.error ProcessingError.Json

/-- The write list a successful run performs: for each group, the artifact
name paired with the serialized group. -/
def writesOf (groups : List (Nat × List State)) (country_map : List (Nat × String)) :
    List (String × JsonValue) :=
  groups.map (fun g => (artifactName country_map g.1, serializeStates g.2))

/-- Apply a list of writes to the directory state, in order. -/
def applyWrites (fs : FSState) (ws : List (String × JsonValue)) : FSState :=
  ws.foldl (fun f w => fsWrite f w.1 w.2) fs

/-- Total number of records held across all groups. -/
def sumLen (m : List (Nat × List State)) : Nat :=
  (m.map (fun p => p.2.length)).sum

section AssocLemmas

lemma find?_map_insert_ne {α : Type} (m : List (Nat × α)) (k k2 : Nat) (v : α)
    (hne : k2 ≠ k) :
    hmFind (m.map (fun p => if p.1 == k then (k, v) else p)) k2 = hmFind m k2 := by
  induction m with
  | nil => rfl
  | cons a m ih =>
    by_cases hak : a.1 = k
    · simp only [hmFind, List.map_cons, List.find?_cons, hak, beq_self_eq_true, if_pos]
      have h1 : (k == k2) = false := by simp [Ne.symm hne]
      have h2 : (a.1 == k2) = false := by simp [hak, Ne.symm hne]
      simp only [h1, h2, hmFind] at ih ⊢
      exact ih
    · have h2 : (a.1 == k) = false := by simp [hak]
      simp only [hmFind, List.map_cons, List.find?_cons, h2, if_neg, Bool.false_eq_true,
        not_false_iff, ite_false]
      by_cases hak2 : a.1 = k2
      · simp [hak2]
      · have h3 : (a.1 == k2) = false := by simp [hak2]
        simp only [h3, hmFind] at ih ⊢
        exact ih

lemma find?_map_insert_eq {α : Type} (m : List (Nat × α)) (k : Nat) (v : α)
    (hany : m.any (fun p => p.1 == k) = true) :
    hmFind (m.map (fun p => if p.1 == k then (k, v) else p)) k = some v := by
  induction m with
  | nil => simp at hany
  | cons a m ih =>
    by_cases hak : a.1 = k
    · simp [hmFind, List.find?_cons, hak]
    · have h2 : (a.1 == k) = false := by simp [hak]
      simp only [List.any_cons, h2, Bool.false_or] at hany
      simp only [hmFind, List.map_cons, List.find?_cons, h2, Bool.false_eq_true,
        not_false_iff, ite_false]
      simp only [hmFind] at ih
      exact ih hany

lemma hmFind_hmInsert {α : Type} (m : List (Nat × α)) (k k2 : Nat) (v : α) :
    hmFind (hmInsert m k v) k2 = if k2 = k then some v else hmFind m k2 := by
  unfold hmInsert
  by_cases hany : m.any (fun p => p.1 == k) = true
  · rw [if_pos hany]
    by_cases hk : k2 = k
    · subst hk
      rw [if_pos rfl]
      exact find?_map_insert_eq m k2 v hany
    · rw [if_neg hk]
      exact find?_map_insert_ne m k k2 v hk
  · rw [if_neg hany]
    have hnone : m.find? (fun p => p.1 == k) = none := by
      rw [List.find?_eq_none]
      intro p hp hpk
      exact hany (List.any_eq_true.mpr ⟨p, hp, hpk⟩)
    by_cases hk : k2 = k
    · subst hk
      simp [hmFind, List.find?_append, hnone]
    · have h1 : (k == k2) = false := by simp [Ne.symm hk]
      simp only [hmFind, List.find?_append, List.find?_cons, h1, Bool.false_eq_true,
        not_false_iff, ite_false, List.find?_nil, Option.or_none, if_neg hk]

lemma find?_map_push_ne (m : List (Nat × List State)) (k k2 : Nat) (s : State)
    (hne : k2 ≠ k) :
    hmFind (m.map (fun p => if p.1 == k then (p.1, p.2 ++ [s]) else p)) k2 =
      hmFind m k2 := by
  induction m with
  | nil => rfl
  | cons a m ih =>
    by_cases hak : a.1 = k
    · simp only [hmFind, List.map_cons, List.find?_cons, hak, beq_self_eq_true, if_pos]
      have h2 : (k == k2) = false := by simp [Ne.symm hne]
      simp only [h2, hmFind] at ih ⊢
      exact ih
    · have h2 : (a.1 == k) = false := by simp [hak]
      simp only [hmFind, List.map_cons, List.find?_cons, h2, Bool.false_eq_true,
        not_false_iff, ite_false]
      by_cases hak2 : a.1 = k2
      · simp [hak2]
      · have h3 : (a.1 == k2) = false := by simp [hak2]
        simp only [h3, hmFind] at ih ⊢
        exact ih

lemma find?_map_push_eq (m : List (Nat × List State)) (k : Nat) (s : State)
    (hany : m.any (fun p => p.1 == k) = true) :
    hmFind (m.map (fun p => if p.1 == k then (p.1, p.2 ++ [s]) else p)) k =
      some ((hmFind m k).getD [] ++ [s]) := by
  induction m with
  | nil => simp at hany
  | cons a m ih =>
    by_cases hak : a.1 = k
    · simp [hmFind, List.find?_cons, hak]
    · have h2 : (a.1 == k) = false := by simp [hak]
      simp only [List.any_cons, h2, Bool.false_or] at hany
      simp only [hmFind, List.map_cons, List.find?_cons, h2, Bool.false_eq_true,
        not_false_iff, ite_false]
      simp only [hmFind] at ih
      exact ih hany

lemma hmFind_groupInsert (m : List (Nat × List State)) (k k2 : Nat) (s : State) :
    hmFind (groupInsert m k s) k2 =
      if k2 = k then some ((hmFind m k).getD [] ++ [s]) else hmFind m k2 := by
  unfold groupInsert
  by_cases hany : m.any (fun p => p.1 == k) = true
  · rw [if_pos hany]
    by_cases hk : k2 = k
    · subst hk
      rw [if_pos rfl]
      exact find?_map_push_eq m k2 s hany
    · rw [if_neg hk]
      exact find?_map_push_ne m k k2 s hk
  · rw [if_neg hany]
    have hnone : m.find? (fun p => p.1 == k) = none := by
      rw [List.find?_eq_none]
      intro p hp hpk
      exact hany (List.any_eq_true.mpr ⟨p, hp, hpk⟩)
    by_cases hk : k2 = k
    · subst hk
      simp [hmFind, List.find?_append, hnone]
    · have h1 : (k == k2) = false := by simp [Ne.symm hk]
      simp only [hmFind, List.find?_append, List.find?_cons, h1, Bool.false_eq_true,
        not_false_iff, ite_false, List.find?_nil, Option.or_none, if_neg hk]

end AssocLemmas

/-- C2: the size gate accepts any file whose size is at most the
100 × 1024 × 1024-byte ceiling (equality included), rejects a strictly
larger file with `FileTooLarge` carrying the actual size and the ceiling,
and turns a failed stat (nonexistent file) into an `Io` error rather than
success. -/
theorem validate_file_size_spec :
    (∀ size : Nat, size ≤ MAX_FILE_SIZE → validate_file_size (some size) = Except.ok ()) ∧
    validate_file_size (some MAX_FILE_SIZE) = Except.ok () ∧
    (∀ size : Nat, MAX_FILE_SIZE < size →
      validate_file_size (some size) =
        Except.error (ProcessingError.FileTooLarge size MAX_FILE_SIZE)) ∧
    validate_file_size none = Except.error ProcessingError.Io := by
  refine ⟨?_, ?_, ?_, rfl⟩
  · intro size h
    simp [validate_file_size, Nat.not_lt.mpr h]
  · simp [validate_file_size]
  · intro size h
    simp [validate_file_size, h]

/-- Witness for C2 at the boundary: a file of exactly the ceiling passes
and one byte over fails with the size and the ceiling in the error. -/
theorem validate_file_size_spec_witness :
    validate_file_size (some 104857600) = Except.ok () ∧
    validate_file_size (some 104857601) =
      Except.error (ProcessingError.FileTooLarge 104857601 104857600) := by
  refine ⟨validate_file_size_spec.1 104857600 (by norm_num [MAX_FILE_SIZE]), ?_⟩
  have h := validate_file_size_spec.2.2.1 104857601 (by norm_num [MAX_FILE_SIZE])
  simpa [MAX_FILE_SIZE] using h

/-- C7: the serialized form of a State carries the `cities` key exactly when
the record's city list is non-empty; an empty list is omitted, not emitted
as an empty array. -/
theorem serializeState_cities_key (s : State) :
    "cities" ∈ jsonKeys (serializeState s) ↔ s.cities ≠ [] := by
  cases hc : s.cities <;> simp [serializeState, jsonKeys, hc]

/-- Group contents of `o` extended by the records of `l`, absent stays
absent when `l` is empty. -/
def optAppend (o : Option (List State)) (l : List State) : Option (List State) :=
  if l.isEmpty then o else some (o.getD [] ++ l)

section GroupingLemmas

lemma hmFind_group_foldl (ss : List State) (m : List (Nat × List State)) (k : Nat) :
    hmFind (ss.foldl (fun m s => groupInsert m s.country_id s) m) k =
      optAppend (hmFind m k) (ss.filter (fun s => s.country_id == k)) := by
  induction ss generalizing m with
  | nil => simp [optAppend]
  | cons s ss ih =>
    rw [List.foldl_cons, ih]
    by_cases hk : s.country_id = k
    · have hpred : (s.country_id == k) = true := by simp [hk]
      simp only [List.filter_cons, hpred, if_true]
      rw [hmFind_groupInsert, if_pos hk.symm, hk]
      cases hfe : ss.filter (fun s => s.country_id == k) with
      | nil => simp [optAppend]
      | cons a l => simp [optAppend]
    · have hpred : (s.country_id == k) = false := by simp [hk]
      simp only [List.filter_cons, hpred, Bool.false_eq_true, if_false]
      rw [hmFind_groupInsert, if_neg (fun h => hk h.symm)]

lemma hmFind_group_states (ss : List State) (k : Nat) :
    hmFind (group_states_by_country ss) k =
      if (ss.filter (fun s => s.country_id == k)).isEmpty then none
      else some (ss.filter (fun s => s.country_id == k)) := by
  rw [group_states_by_country, hmFind_group_foldl]
  simp [hmFind, optAppend]

lemma keys_groupInsert (m : List (Nat × List State)) (k : Nat) (s : State) :
    (groupInsert m k s).map Prod.fst =
      if m.any (fun p => p.1 == k) then m.map Prod.fst
      else m.map Prod.fst ++ [k] := by
  unfold groupInsert
  split
  · rw [List.map_map]
    apply List.map_congr_left
    intro p _
    by_cases hp : p.1 = k <;> simp [hp]
  · simp

lemma keys_nodup_groupInsert (m : List (Nat × List State)) (k : Nat) (s : State)
    (hnd : (m.map Prod.fst).Nodup) :
    ((groupInsert m k s).map Prod.fst).Nodup := by
  rw [keys_groupInsert]
  split
  · exact hnd
  · rename_i hany
    rw [List.nodup_append]
    refine ⟨hnd, List.nodup_singleton k, ?_⟩
    intro a ha hka
    rcases List.mem_map.mp ha with ⟨p, hp, hpk⟩
    rcases List.mem_singleton.mp hka with rfl
    exact hany (List.any_eq_true.mpr ⟨p, hp, by simp [hpk]⟩)

lemma keys_nodup_group_foldl (ss : List State) (m : List (Nat × List State))
    (hnd : (m.map Prod.fst).Nodup) :
    (((ss.foldl (fun m s => groupInsert m s.country_id s) m)).map Prod.fst).Nodup := by
  induction ss generalizing m with
  | nil => exact hnd
  | cons s ss ih => exact ih _ (keys_nodup_groupInsert m s.country_id s hnd)

lemma keys_nodup_group_states (ss : List State) :
    ((group_states_by_country ss).map Prod.fst).Nodup :=
  keys_nodup_group_foldl ss [] (by simp)

lemma hmFind_of_mem_nodup {α : Type} (m : List (Nat × α)) (k : Nat) (v : α)
    (hnd : (m.map Prod.fst).Nodup) (hmem : (k, v) ∈ m) : hmFind m k = some v := by
  induction m with
  | nil => cases hmem
  | cons a m ih =>
    rcases List.mem_cons.mp hmem with heq | hmem2
    · subst heq
      simp [hmFind, List.find?_cons]
    · have hk : k ∈ m.map Prod.fst := List.mem_map.mpr ⟨(k, v), hmem2, rfl⟩
      have hna : a.1 ∉ m.map Prod.fst := by
        simp only [List.map_cons, List.nodup_cons] at hnd
        exact hnd.1
      have hne : (a.1 == k) = false := by
        simp only [beq_eq_false_iff_ne, ne_eq]
        intro h
        exact hna (h ▸ hk)
      simp only [hmFind, List.find?_cons, hne, Bool.false_eq_true, not_false_iff,
        ite_false]
      have hndm : (m.map Prod.fst).Nodup := by
        simp only [List.map_cons, List.nodup_cons] at hnd
        exact hnd.2
      exact ih hndm hmem2

lemma sumLen_append (m1 m2 : List (Nat × List State)) :
    sumLen (m1 ++ m2) = sumLen m1 + sumLen m2 := by
  simp [sumLen]

lemma sumLen_map_push (m : List (Nat × List State)) (k : Nat) (s : State)
    (hany : m.any (fun p => p.1 == k) = true) (hnd : (m.map Prod.fst).Nodup) :
    sumLen (m.map (fun p => if p.1 == k then (p.1, p.2 ++ [s]) else p)) =
      sumLen m + 1 := by
  induction m with
  | nil => simp at hany
  | cons a m ih =>
    have hndm : (m.map Prod.fst).Nodup := by
      simp only [List.map_cons, List.nodup_cons] at hnd
      exact hnd.2
    by_cases hak : a.1 = k
    · have hidm : m.map (fun p => if p.1 == k then (p.1, p.2 ++ [s]) else p) = m := by
        have : ∀ p ∈ m, (if p.1 == k then (p.1, p.2 ++ [s]) else p) = p := by
          intro p hp
          have hna : a.1 ∉ m.map Prod.fst := by
            simp only [List.map_cons, List.nodup_cons] at hnd
            exact hnd.1
          have hpk : (p.1 == k) = false := by
            simp only [beq_eq_false_iff_ne, ne_eq]
            intro h
            exact hna (by rw [hak, ← h]; exact List.mem_map.mpr ⟨p, hp, rfl⟩)
          simp [hpk]
        rw [List.map_congr_left this]
        simp
      simp only [List.map_cons, hak, beq_self_eq_true, if_pos, hidm, sumLen,
        List.map_cons, List.sum_cons, List.length_append, List.length_singleton]
      omega
    · have h2 : (a.1 == k) = false := by simp [hak]
      simp only [List.any_cons, h2, Bool.false_or] at hany
      simp only [List.map_cons, h2, Bool.false_eq_true, not_false_iff, ite_false]
      have := ih hany hndm
      simp only [sumLen, List.map_cons, List.sum_cons] at this ⊢
      omega

lemma sumLen_groupInsert (m : List (Nat × List State)) (k : Nat) (s : State)
    (hnd : (m.map Prod.fst).Nodup) :
    sumLen (groupInsert m k s) = sumLen m + 1 := by
  unfold groupInsert
  split
  · exact sumLen_map_push m k s (by assumption) hnd
  · rw [sumLen_append]
    simp [sumLen]

lemma sumLen_group_foldl (ss : List State) (m : List (Nat × List State))
    (hnd : (m.map Prod.fst).Nodup) :
    sumLen (ss.foldl (fun m s => groupInsert m s.country_id s) m) =
      sumLen m + ss.length := by
  induction ss generalizing m with
  | nil => simp
  | cons s ss ih =>
    rw [List.foldl_cons, ih _ (keys_nodup_groupInsert m s.country_id s hnd),
      sumLen_groupInsert m s.country_id s hnd]
    simp only [List.length_cons]
    omega

end GroupingLemmas

/-- C1: grouping is a lossless, duplication-free, stable partition — the
group sizes sum to the input length, each group is exactly the subsequence
of input records carrying that country id (in input order), and hence every
record in a group has the group's key as its own `country_id`. -/
theorem group_states_spec (ss : List State) :
    sumLen (group_states_by_country ss) = ss.length ∧
    ∀ k g, (k, g) ∈ group_states_by_country ss →
      g = ss.filter (fun s => s.country_id == k) ∧ ∀ s ∈ g, s.country_id = k := by
  constructor
  · have h := sumLen_group_foldl ss [] (by simp)
    simpa [group_states_by_country, sumLen] using h
  · intro k g hmem
    have hf := hmFind_of_mem_nodup _ k g (keys_nodup_group_states ss) hmem
    rw [hmFind_group_states] at hf
    split at hf
    · cases hf
    · have hg : g = ss.filter (fun s => s.country_id == k) := by
        injection hf with h
        exact h.symm
      refine ⟨hg, ?_⟩
      intro s hs
      rw [hg] at hs
      have := (List.mem_filter.mp hs).2
      simpa using this

/-- Sample records mirroring the repository's unit tests. -/
def sampleCity : City :=
  { id := 1, name := "Los Angeles", latitude := some "34.0522",
    longitude := some "-118.2437" }

def sampleState1 : State :=
  { id := 1, country_id := 1, name := "California", state_code := some "CA",
    latitude := none, longitude := none, cities := [sampleCity] }

def sampleState2 : State :=
  { id := 2, country_id := 1, name := "New York", state_code := some "NY",
    latitude := none, longitude := none, cities := [] }

def sampleState3 : State :=
  { id := 3, country_id := 2, name := "Ontario", state_code := some "ON",
    latitude := none, longitude := none, cities := [] }

/-- Witness for C1 on the test fixture: country 1's group is the stable
subsequence of the two country-1 states. -/
theorem group_states_spec_witness :
    [sampleState1, sampleState2] =
      ([sampleState1, sampleState2, sampleState3]).filter
        (fun s => s.country_id == 1) ∧
    ∀ s ∈ [sampleState1, sampleState2], s.country_id = 1 :=
  (group_states_spec [sampleState1, sampleState2, sampleState3]).2 1
    [sampleState1, sampleState2] (by decide)

section NamingLemmas

lemma digitChar10_toNat (d : Nat) (h : d < 10) : (digitChar10 d).toNat = 48 + d := by
  interval_cases d <;> rfl

lemma digitChar10_ne_underscore (d : Nat) : digitChar10 d ≠ '_' := by
  rcases d with _|_|_|_|_|_|_|_|_|_|n <;> simp [digitChar10]

lemma natToDigitsAux_eq_digits (fuel : Nat) : ∀ n : Nat, n ≤ fuel →
    natToDigitsAux fuel n = ((Nat.digits 10 n).reverse).map digitChar10 := by
  induction fuel with
  | zero =>
    intro n hn
    have : n = 0 := by omega
    subst this
    simp [natToDigitsAux]
  | succ fuel ih =>
    intro n hn
    by_cases hz : n = 0
    · subst hz
      simp [natToDigitsAux]
    · have hpos : 0 < n := Nat.pos_of_ne_zero hz
      have hlt : n / 10 < n := Nat.div_lt_self hpos (by norm_num)
      rw [natToDigitsAux, if_neg hz, ih (n / 10) (by omega),
        Nat.digits_def' (by norm_num : (1:ℕ) < 10) hpos]
      simp

lemma map_digitChar10_inj : ∀ (l1 l2 : List Nat), (∀ d ∈ l1, d < 10) →
    (∀ d ∈ l2, d < 10) → l1.map digitChar10 = l2.map digitChar10 → l1 = l2 := by
  intro l1
  induction l1 with
  | nil =>
    intro l2 h1 h2 heq
    cases l2 with
    | nil => rfl
    | cons b l2 => cases heq
  | cons a l1 ih =>
    intro l2 h1 h2 heq
    cases l2 with
    | nil => cases heq
    | cons b l2 =>
      simp only [List.map_cons, List.cons.injEq] at heq
      have ha : a < 10 := h1 a (by simp)
      have hb : b < 10 := h2 b (by simp)
      have hab : a = b := by
        have := congrArg Char.toNat heq.1
        rw [digitChar10_toNat a ha, digitChar10_toNat b hb] at this
        omega
      have htl : l1 = l2 := by
        apply ih l2 (fun d hd => h1 d (by simp [hd])) (fun d hd => h2 d (by simp [hd]))
          heq.2
      rw [hab, htl]

lemma natToString_inj : ∀ a b : Nat, natToString a = natToString b → a = b := by
  have key : ∀ a : Nat, a ≠ 0 →
      (natToString a).data = ((Nat.digits 10 a).reverse).map digitChar10 := by
    intro a ha
    rw [natToString, if_neg ha, natToDigitsAux_eq_digits a a le_rfl]
  have digs : ∀ a : Nat, ∀ d ∈ (Nat.digits 10 a).reverse, d < 10 := by
    intro a d hd
    exact Nat.digits_lt_base (by norm_num) (List.mem_reverse.mp hd)
  intro a b h
  by_cases ha : a = 0 <;> by_cases hb : b = 0
  · rw [ha, hb]
  · exfalso
    have hd := congrArg String.data h
    rw [key b hb] at hd
    have h0 : (natToString 0).data = ['0'] := rfl
    rw [ha, h0] at hd
    have : ['0'] = ([0] : List Nat).map digitChar10 := rfl
    rw [this] at hd
    have := map_digitChar10_inj [0] ((Nat.digits 10 b).reverse) (by simp) (digs b) hd
    have hrev : Nat.digits 10 b = [0] := by
      have := congrArg List.reverse this
      simpa using this.symm
    have hb0 : b = Nat.ofDigits 10 (Nat.digits 10 b) := (Nat.ofDigits_digits 10 b).symm
    rw [hrev] at hb0
    simp [Nat.ofDigits_cons, Nat.ofDigits_nil] at hb0
    exact hb hb0
  · exfalso
    have hd := congrArg String.data h
    rw [key a ha] at hd
    have h0 : (natToString 0).data = ['0'] := rfl
    rw [hb, h0] at hd
    have : ['0'] = ([0] : List Nat).map digitChar10 := rfl
    rw [this] at hd
    have := map_digitChar10_inj ((Nat.digits 10 a).reverse) [0] (digs a) (by simp) hd
    have hrev : Nat.digits 10 a = [0] := by
      have := congrArg List.reverse this
      simpa using this
    have ha0 : a = Nat.ofDigits 10 (Nat.digits 10 a) := (Nat.ofDigits_digits 10 a).symm
    rw [hrev] at ha0
    simp [Nat.ofDigits_cons, Nat.ofDigits_nil] at ha0
    exact ha ha0
  · have hd := congrArg String.data h
    rw [key a ha, key b hb] at hd
    have := map_digitChar10_inj _ _ (digs a) (digs b) hd
    have hda : Nat.digits 10 a = Nat.digits 10 b := List.reverse_inj.mp this
    have := congrArg (Nat.ofDigits 10) hda
    rwa [Nat.ofDigits_digits, Nat.ofDigits_digits] at this

lemma natToString_no_underscore (n : Nat) : ∀ c ∈ (natToString n).data, c ≠ '_' := by
  intro c hc
  by_cases hz : n = 0
  · subst hz
    have : (natToString 0).data = ['0'] := rfl
    rw [this] at hc
    simp at hc
    rw [hc]
    decide
  · rw [natToString, if_neg hz, natToDigitsAux_eq_digits n n le_rfl] at hc
    rcases List.mem_map.mp hc with ⟨d, _, rfl⟩
    exact digitChar10_ne_underscore d

lemma append_underscore_cancel : ∀ (s1 s2 r1 r2 : List Char),
    (∀ c ∈ s1, c ≠ '_') → (∀ c ∈ s2, c ≠ '_') →
    s1 ++ '_' :: r1 = s2 ++ '_' :: r2 → s1 = s2 := by
  intro s1
  induction s1 with
  | nil =>
    intro s2 r1 r2 h1 h2 heq
    cases s2 with
    | nil => rfl
    | cons b s2 =>
      exfalso
      simp only [List.nil_append, List.cons_append, List.cons.injEq] at heq
      exact h2 b (by simp) heq.1.symm
  | cons a s1 ih =>
    intro s2 r1 r2 h1 h2 heq
    cases s2 with
    | nil =>
      exfalso
      simp only [List.nil_append, List.cons_append, List.cons.injEq] at heq
      exact h1 a (by simp) heq.1
    | cons b s2 =>
      simp only [List.cons_append, List.cons.injEq] at heq
      have := ih s2 r1 r2 (fun c hc => h1 c (by simp [hc]))
        (fun c hc => h2 c (by simp [hc])) heq.2
      rw [heq.1, this]

lemma artifactName_data (cm : List (Nat × String)) (cid : Nat) :
    (artifactName cm cid).data =
      (natToString cid).data ++
        '_' :: (((hmFind cm cid).getD "XX").data ++ (".json" : String).data) := by
  simp only [artifactName, String.data_append]
  simp [List.append_assoc, List.singleton_append]

lemma artifactName_inj (cm : List (Nat × String)) (c1 c2 : Nat)
    (h : artifactName cm c1 = artifactName cm c2) : c1 = c2 := by
  have hd := congrArg String.data h
  rw [artifactName_data, artifactName_data] at hd
  have := append_underscore_cancel (natToString c1).data (natToString c2).data _ _
    (natToString_no_underscore c1) (natToString_no_underscore c2) hd
  exact natToString_inj c1 c2 (String.ext this)

end NamingLemmas

section WriteLemmas

lemma find?_fswrite_ne (fs : FSState) (path q : String) (c : JsonValue)
    (hne : q ≠ path) :
    fsFind (fs.map (fun p => if p.1 == path then (path, c) else p)) q = fsFind fs q := by
  induction fs with
  | nil => rfl
  | cons a m ih =>
    by_cases hak : a.1 = path
    · simp only [fsFind, List.map_cons, List.find?_cons, hak, beq_self_eq_true, if_pos]
      have h1 : (path == q) = false := by simp [Ne.symm hne]
      have h2 : (a.1 == q) = false := by simp [hak, Ne.symm hne]
      simp only [h1, h2, fsFind] at ih ⊢
      exact ih
    · have h2 : (a.1 == path) = false := by simp [hak]
      simp only [fsFind, List.map_cons, List.find?_cons, h2, Bool.false_eq_true,
        not_false_iff, ite_false]
      by_cases hak2 : a.1 = q
      · simp [hak2]
      · have h3 : (a.1 == q) = false := by simp [hak2]
        simp only [h3, fsFind] at ih ⊢
        exact ih

lemma find?_fswrite_eq (fs : FSState) (path : String) (c : JsonValue)
    (hany : fs.any (fun p => p.1 == path) = true) :
    fsFind (fs.map (fun p => if p.1 == path then (path, c) else p)) path = some c := by
  induction fs with
  | nil => simp at hany
  | cons a m ih =>
    by_cases hak : a.1 = path
    · simp [fsFind, List.find?_cons, hak]
    · have h2 : (a.1 == path) = false := by simp [hak]
      simp only [List.any_cons, h2, Bool.false_or] at hany
      simp only [fsFind, List.map_cons, List.find?_cons, h2, Bool.false_eq_true,
        not_false_iff, ite_false]
      simp only [fsFind] at ih
      exact ih hany

lemma fsFind_fsWrite (fs : FSState) (path : String) (c : JsonValue) (q : String) :
    fsFind (fsWrite fs path c) q = if q = path then some c else fsFind fs q := by
  unfold fsWrite
  by_cases hany : fs.any (fun p => p.1 == path) = true
  · rw [if_pos hany]
    by_cases hk : q = path
    · subst hk
      rw [if_pos rfl]
      exact find?_fswrite_eq fs q c hany
    · rw [if_neg hk]
      exact find?_fswrite_ne fs path q c hk
  · rw [if_neg hany]
    have hnone : fs.find? (fun p => p.1 == path) = none := by
      rw [List.find?_eq_none]
      intro p hp hpk
      exact hany (List.any_eq_true.mpr ⟨p, hp, hpk⟩)
    by_cases hk : q = path
    · subst hk
      simp [fsFind, List.find?_append, hnone]
    · have h1 : (path == q) = false := by simp [Ne.symm hk]
      simp only [fsFind, List.find?_append, List.find?_cons, h1, Bool.false_eq_true,
        not_false_iff, ite_false, List.find?_nil, Option.or_none, if_neg hk]

lemma fsFind_applyWrites (ws : List (String × JsonValue)) (fs : FSState) (q : String) :
    fsFind (applyWrites fs ws) q =
      match ws.reverse.find? (fun w => w.1 == q) with
      | some w => some w.2
      | none => fsFind fs q := by
  induction ws generalizing fs with
  | nil => simp [applyWrites]
  | cons w ws ih =>
    have hstep : applyWrites fs (w :: ws) = applyWrites (fsWrite fs w.1 w.2) ws := rfl
    rw [hstep, ih]
    have hrev : (w :: ws).reverse = ws.reverse ++ [w] := by simp
    rw [hrev, List.find?_append]
    cases h : ws.reverse.find? (fun x => x.1 == q) with
    | some w2 => simp
    | none =>
      simp only [Option.none_or]
      rw [fsFind_fsWrite]
      by_cases hk : q = w.1
      · subst hk
        simp [List.find?_cons]
      · have h2 : (w.1 == q) = false := by simp [Ne.symm hk]
        simp [List.find?_cons, h2, if_neg hk]

lemma writeLoop_ok :
    ∀ (groups : List (Nat × List State)) (country_map : List (Nat × String))
      (failAt : String → Bool) (total i : Nat) (fs : FSState) (progress : List Nat),
      (∀ g ∈ groups, failAt (artifactName country_map g.1) = false) →
      writeLoop groups country_map failAt total i fs progress =
        { fs := applyWrites fs (writesOf groups country_map),
          progress := progress ++
            (List.range groups.length).map (fun j => (i + j + 1) * 100 / total),
          err := none } := by
  intro groups
  induction groups with
  | nil =>
    intro cm failAt total i fs progress h
    simp [writeLoop, applyWrites, writesOf]
  | cons g gs ih =>
    intro cm failAt total i fs progress h
    obtain ⟨cid, sts⟩ := g
    have hg : failAt (artifactName cm cid) = false := h (cid, sts) (by simp)
    have htail : ∀ x ∈ gs, failAt (artifactName cm x.1) = false := by
      intro x hx
      exact h x (List.mem_cons_of_mem _ hx)
    simp only [writeLoop, hg, Bool.false_eq_true, not_false_iff, ite_false]
    rw [ih cm failAt total (i + 1) _ _ htail]
    have hfs : applyWrites (fsWrite fs (artifactName cm cid) (serializeStates sts))
        (writesOf gs cm) = applyWrites fs (writesOf ((cid, sts) :: gs) cm) := rfl
    rw [hfs]
    have hprog : (progress ++ [(i + 1) * 100 / total]) ++
        (List.range gs.length).map (fun j => (i + 1 + j + 1) * 100 / total) =
        progress ++
          (List.range (gs.length + 1)).map (fun j => (i + j + 1) * 100 / total) := by
      rw [List.range_succ_eq_map gs.length, List.map_cons, List.map_map,
        List.append_assoc, List.singleton_append]
      refine congrArg (fun l => progress ++ l) ?_
      refine congrArg₂ List.cons rfl ?_
      apply List.map_congr_left
      intro j _
      show (i + 1 + j + 1) * 100 / total = (i + (j + 1) + 1) * 100 / total
      have hj : i + 1 + j + 1 = i + (j + 1) + 1 := by omega
      rw [hj]
    rw [hprog]
    rfl

lemma writeLoop_fail :
    ∀ (pre : List (Nat × List State)) (g : Nat × List State)
      (post : List (Nat × List State)) (country_map : List (Nat × String))
      (failAt : String → Bool) (total i : Nat) (fs : FSState) (progress : List Nat),
      (∀ x ∈ pre, failAt (artifactName country_map x.1) = false) →
      failAt (artifactName country_map g.1) = true →
      writeLoop (pre ++ g :: post) country_map failAt total i fs progress =
        { fs := applyWrites fs (writesOf pre country_map),
          progress := progress ++
            (List.range pre.length).map (fun j => (i + j + 1) * 100 / total),
          err := some ProcessingError.Io } := by
  intro pre
  induction pre with
  | nil =>
    intro g post cm failAt total i fs progress hpre hg
    obtain ⟨cid, sts⟩ := g
    simp only [List.nil_append, writeLoop, hg, if_pos]
    simp [applyWrites, writesOf]
  | cons p pre ih =>
    intro g post cm failAt total i fs progress hpre hg
    obtain ⟨cid, sts⟩ := p
    have hp : failAt (artifactName cm cid) = false := hpre (cid, sts) (by simp)
    have htail : ∀ x ∈ pre, failAt (artifactName cm x.1) = false := by
      intro x hx
      exact hpre x (List.mem_cons_of_mem _ hx)
    simp only [List.cons_append, writeLoop, hp, Bool.false_eq_true, not_false_iff,
      ite_false, List.append_eq]
    rw [ih g post cm failAt total (i + 1) _ _ htail hg]
    have hfs : applyWrites (fsWrite fs (artifactName cm cid) (serializeStates sts))
        (writesOf pre cm) = applyWrites fs (writesOf ((cid, sts) :: pre) cm) := rfl
    rw [hfs]
    have hprog : (progress ++ [(i + 1) * 100 / total]) ++
        (List.range pre.length).map (fun j => (i + 1 + j + 1) * 100 / total) =
        progress ++
          (List.range (pre.length + 1)).map (fun j => (i + j + 1) * 100 / total) := by
      rw [List.range_succ_eq_map pre.length, List.map_cons, List.map_map,
        List.append_assoc, List.singleton_append]
      refine congrArg (fun l => progress ++ l) ?_
      refine congrArg₂ List.cons rfl ?_
      apply List.map_congr_left
      intro j _
      show (i + 1 + j + 1) * 100 / total = (i + (j + 1) + 1) * 100 / total
      have hj : i + 1 + j + 1 = i + (j + 1) + 1 := by omega
      rw [hj]
    rw [hprog]
    simp [List.length_cons]

lemma exists_first_fail (groups : List (Nat × List State))
    (country_map : List (Nat × String)) (failAt : String → Bool) :
    (∀ g ∈ groups, failAt (artifactName country_map g.1) = false) ∨
    ∃ pre g post, groups = pre ++ g :: post ∧
      (∀ x ∈ pre, failAt (artifactName country_map x.1) = false) ∧
      failAt (artifactName country_map g.1) = true := by
  induction groups with
  | nil =>
    left
    intro g hg
    cases hg
  | cons g gs ih =>
    cases hf : failAt (artifactName country_map g.1) with
    | true =>
      right
      exact ⟨[], g, gs, rfl, fun x hx => absurd hx (List.not_mem_nil x), hf⟩
    | false =>
      rcases ih with hall | ⟨pre, x, post, heq, hpre, hx⟩
      · left
        intro g2 hg2
        rcases List.mem_cons.mp hg2 with rfl | hg2m
        · exact hf
        · exact hall g2 hg2m
      · right
        refine ⟨g :: pre, x, post, by simp [heq], ?_, hx⟩
        intro y hy
        rcases List.mem_cons.mp hy with rfl | hym
        · exact hf
        · exact hpre y hym

lemma writeLoop_err_none :
    ∀ (groups : List (Nat × List State)) (country_map : List (Nat × String))
      (failAt : String → Bool) (total i : Nat) (fs : FSState) (progress : List Nat),
      (writeLoop groups country_map failAt total i fs progress).err = none →
      ∀ g ∈ groups, failAt (artifactName country_map g.1) = false := by
  intro groups
  induction groups with
  | nil =>
    intro cm failAt total i fs progress h g hg
    cases hg
  | cons g gs ih =>
    intro cm failAt total i fs progress h g2 hg2
    obtain ⟨cid, sts⟩ := g
    cases hf : failAt (artifactName cm cid) with
    | true =>
      exfalso
      simp only [writeLoop, hf, if_pos] at h
      cases h
    | false =>
      simp only [writeLoop, hf, Bool.false_eq_true, not_false_iff, ite_false] at h
      rcases List.mem_cons.mp hg2 with rfl | hg2m
      · exact hf
      · exact ih cm failAt total (i + 1) _ _ h g2 hg2m

end WriteLemmas

section CountryIndexLemmas

lemma keys_hmInsert {α : Type} (m : List (Nat × α)) (k : Nat) (v : α) :
    (hmInsert m k v).map Prod.fst =
      if m.any (fun p => p.1 == k) then m.map Prod.fst
      else m.map Prod.fst ++ [k] := by
  unfold hmInsert
  split
  · rw [List.map_map]
    apply List.map_congr_left
    intro p _
    by_cases hp : p.1 = k <;> simp [hp]
  · simp

lemma keys_nodup_hmInsert {α : Type} (m : List (Nat × α)) (k : Nat) (v : α)
    (hnd : (m.map Prod.fst).Nodup) :
    ((hmInsert m k v).map Prod.fst).Nodup := by
  rw [keys_hmInsert]
  split
  · exact hnd
  · rename_i hany
    rw [List.nodup_append]
    refine ⟨hnd, List.nodup_singleton k, ?_⟩
    intro a ha hka
    rcases List.mem_map.mp ha with ⟨p, hp, hpk⟩
    rcases List.mem_singleton.mp hka with rfl
    exact hany (List.any_eq_true.mpr ⟨p, hp, by simp [hpk]⟩)

lemma hmFind_load_foldl (cs : List Country) (m : List (Nat × String)) (k : Nat) :
    hmFind (cs.foldl (fun m c => hmInsert m c.id c.code) m) k =
      match cs.reverse.find? (fun c => c.id == k) with
      | some c => some c.code
      | none => hmFind m k := by
  induction cs generalizing m with
  | nil => simp
  | cons c cs ih =>
    rw [List.foldl_cons, ih]
    have hrev : (c :: cs).reverse = cs.reverse ++ [c] := by simp
    rw [hrev, List.find?_append]
    cases h : cs.reverse.find? (fun c => c.id == k) with
    | some c2 => simp
    | none =>
      simp only [Option.none_or]
      rw [hmFind_hmInsert]
      by_cases hk : k = c.id
      · subst hk
        simp [List.find?_cons]
      · have h2 : (c.id == k) = false := by simp [Ne.symm hk]
        simp [List.find?_cons, h2, if_neg hk]

lemma keys_nodup_load_foldl (cs : List Country) (m : List (Nat × String))
    (hnd : (m.map Prod.fst).Nodup) :
    ((cs.foldl (fun m c => hmInsert m c.id c.code) m).map Prod.fst).Nodup := by
  induction cs generalizing m with
  | nil => exact hnd
  | cons c cs ih => exact ih _ (keys_nodup_hmInsert m c.id c.code hnd)

end CountryIndexLemmas

/-- C5: the country index built by `load_countries` maps each id present in
the catalog to the code of the last record with that id (last-write-wins),
its keys are exactly the ids of the catalog with no duplicates (one entry
per distinct id), and a record whose id occurs uniquely round-trips to its
own code. -/
theorem load_countries_spec (cs : List Country) :
    (∀ k, hmFind (load_countries cs) k =
      (cs.reverse.find? (fun c => c.id == k)).map (fun c => c.code)) ∧
    ((load_countries cs).map Prod.fst).Nodup ∧
    (∀ k, (∃ p ∈ load_countries cs, p.1 = k) ↔ ∃ c ∈ cs, c.id = k) ∧
    (∀ c ∈ cs, (∀ c2 ∈ cs, c2.id = c.id → c2 = c) →
      hmFind (load_countries cs) c.id = some c.code) := by
  have hchar : ∀ k, hmFind (load_countries cs) k =
      match cs.reverse.find? (fun c => c.id == k) with
      | some c => some c.code
      | none => none := by
    intro k
    have h := hmFind_load_foldl cs [] k
    simpa [load_countries, hmFind] using h
  have hcharm : ∀ k, hmFind (load_countries cs) k =
      (cs.reverse.find? (fun c => c.id == k)).map (fun c => c.code) := by
    intro k
    rw [hchar]
    cases cs.reverse.find? (fun c => c.id == k) <;> simp
  have hnodup : ((load_countries cs).map Prod.fst).Nodup := by
    have h := keys_nodup_load_foldl cs [] (by simp)
    simpa [load_countries] using h
  refine ⟨hcharm, hnodup, ?_, ?_⟩
  · intro k
    constructor
    · rintro ⟨p, hp, rfl⟩
      have hf : hmFind (load_countries cs) p.1 = some p.2 :=
        hmFind_of_mem_nodup _ p.1 p.2 hnodup hp
      rw [hcharm] at hf
      cases h : cs.reverse.find? (fun c => c.id == p.1) with
      | none => rw [h] at hf; cases hf
      | some c =>
        have hcm : c ∈ cs := List.mem_reverse.mp (List.mem_of_find?_eq_some h)
        have hcp := List.find?_some h
        exact ⟨c, hcm, by simpa using hcp⟩
    · rintro ⟨c, hc, rfl⟩
      have hs : (cs.reverse.find? (fun x => x.id == c.id)).isSome :=
        List.find?_isSome.mpr ⟨c, List.mem_reverse.mpr hc, by simp⟩
      obtain ⟨c2, hc2⟩ := Option.isSome_iff_exists.mp hs
      have hf : hmFind (load_countries cs) c.id = some c2.code := by
        rw [hcharm, hc2]
        rfl
      unfold hmFind at hf
      cases hfind : (load_countries cs).find? (fun p => p.1 == c.id) with
      | none => rw [hfind] at hf; cases hf
      | some p =>
        have hpm : p ∈ load_countries cs := List.mem_of_find?_eq_some hfind
        have hpp := List.find?_some hfind
        exact ⟨p, hpm, by simpa using hpp⟩
  · intro c hc huniq
    have hfind : cs.reverse.find? (fun x => x.id == c.id) = some c := by
      have hs : (cs.reverse.find? (fun x => x.id == c.id)).isSome :=
        List.find?_isSome.mpr ⟨c, List.mem_reverse.mpr hc, by simp⟩
      obtain ⟨c2, hc2⟩ := Option.isSome_iff_exists.mp hs
      have hcm : c2 ∈ cs := List.mem_reverse.mp (List.mem_of_find?_eq_some hc2)
      have hcp : c2.id = c.id := by simpa using List.find?_some hc2
      rw [hc2, huniq c2 hcm hcp]
    rw [hcharm, hfind]
    rfl

/-- Witness for C5 on the spec's example catalog: both unique records
round-trip into the index. -/
theorem load_countries_spec_witness :
    hmFind (load_countries [{ id := 1, code := "US" }, { id := 2, code := "CA" }]) 1 =
      some "US" :=
  (load_countries_spec [{ id := 1, code := "US" }, { id := 2, code := "CA" }]).2.2.2
    { id := 1, code := "US" } (by decide) (by decide)

/-- C3: the artifact name is exactly `{country_id}_{code}.json`, with the
code taken from the index when present and the fixed fallback `"XX"` when
absent, and names computed for two different country ids never collide. -/
theorem artifact_name_spec :
    (∀ (cm : List (Nat × String)) (cid : Nat) (code : String),
      hmFind cm cid = some code →
      artifactName cm cid = natToString cid ++ "_" ++ code ++ ".json") ∧
    (∀ (cm : List (Nat × String)) (cid : Nat),
      hmFind cm cid = none →
      artifactName cm cid = natToString cid ++ "_" ++ "XX" ++ ".json") ∧
    (∀ (cm : List (Nat × String)) (cid1 cid2 : Nat), cid1 ≠ cid2 →
      artifactName cm cid1 ≠ artifactName cm cid2) := by
  refine ⟨?_, ?_, ?_⟩
  · intro cm cid code h
    simp [artifactName, h]
  · intro cm cid h
    simp [artifactName, h]
  · intro cm cid1 cid2 hne habs
    exact hne (artifactName_inj cm cid1 cid2 habs)

/-- Witness for C3: a mapped id uses its code, an unmapped one the `XX`
fallback, and the names for ids 1 and 2 differ. -/
theorem artifact_name_spec_witness :
    artifactName [(1, "US")] 1 = natToString 1 ++ "_" ++ "US" ++ ".json" ∧
    artifactName [(1, "US")] 999 = natToString 999 ++ "_" ++ "XX" ++ ".json" ∧
    artifactName [] 1 ≠ artifactName [] 2 :=
  ⟨artifact_name_spec.1 [(1, "US")] 1 "US" (by decide),
   artifact_name_spec.2.1 [(1, "US")] 999 (by decide),
   artifact_name_spec.2.2 [] 1 2 (by decide)⟩

/-- C4: every progress value printed by the write phase follows the exact
truncating formula — the entry printed after the (j+1)-st write equals
`(j + 1) * 100 / (number of groups)` in integer division, whether or not
the run later fails. -/
theorem progress_spec (by_country : List (Nat × List State))
    (country_map : List (Nat × String)) (failAt : String → Bool) (fs : FSState) :
    ∀ j (h : j < (write_country_files by_country country_map failAt fs).progress.length),
      (write_country_files by_country country_map failAt fs).progress.get ⟨j, h⟩ =
        (j + 1) * 100 / by_country.length := by
  have hshape : (write_country_files by_country country_map failAt fs).progress =
      (List.range (write_country_files by_country country_map failAt fs).progress.length).map
        (fun j => (j + 1) * 100 / by_country.length) := by
    rcases exists_first_fail by_country country_map failAt with hall |
      ⟨pre, g, post, heq, hpre, hg⟩
    · rw [write_country_files, writeLoop_ok by_country country_map failAt
        by_country.length 0 fs [] hall]
      simp only [List.nil_append, List.length_map, List.length_range]
      apply List.map_congr_left
      intro j _
      have : 0 + j + 1 = j + 1 := by omega
      rw [this]
    · rw [write_country_files, heq, writeLoop_fail pre g post country_map failAt
        (pre ++ g :: post).length 0 fs [] hpre hg]
      simp only [List.nil_append, List.length_map, List.length_range]
      rw [← heq]
      apply List.map_congr_left
      intro j _
      have : 0 + j + 1 = j + 1 := by omega
      rw [this]
  intro j h
  rw [List.get_eq_getElem, List.getElem_of_eq hshape h, List.getElem_map,
    List.getElem_range]

/-- Witness for C4: on a two-group run the printed percentages are
50 and 100. -/
theorem progress_spec_witness :
    (write_country_files [(1, [sampleState1]), (2, [sampleState3])] [(1, "US")]
      (fun _ => false) []).progress.get ⟨0, by decide⟩ = 50 := by
  have h := progress_spec [(1, [sampleState1]), (2, [sampleState3])] [(1, "US")]
    (fun _ => false) [] 0 (by decide)
  simpa using h

/-- C8: with unchanged inputs, a second run over the directory produced by
the first succeeds, prints the same progress, and leaves every file with
content identical to the first run's — output content is a function of the
group and resolved code alone, and existing files are overwritten. -/
theorem write_idempotent (by_country : List (Nat × List State))
    (country_map : List (Nat × String)) (failAt : String → Bool) (fs0 : FSState)
    (h1 : (write_country_files by_country country_map failAt fs0).err = none) :
    (write_country_files by_country country_map failAt
        (write_country_files by_country country_map failAt fs0).fs).err = none ∧
    (write_country_files by_country country_map failAt
        (write_country_files by_country country_map failAt fs0).fs).progress =
      (write_country_files by_country country_map failAt fs0).progress ∧
    ∀ path,
      fsFind (write_country_files by_country country_map failAt
        (write_country_files by_country country_map failAt fs0).fs).fs path =
      fsFind (write_country_files by_country country_map failAt fs0).fs path := by
  have hall : ∀ g ∈ by_country, failAt (artifactName country_map g.1) = false :=
    writeLoop_err_none by_country country_map failAt by_country.length 0 fs0 [] h1
  have hrun : ∀ fs : FSState,
      write_country_files by_country country_map failAt fs =
        { fs := applyWrites fs (writesOf by_country country_map),
          progress := (List.range by_country.length).map
            (fun j => (0 + j + 1) * 100 / by_country.length),
          err := none } := by
    intro fs
    rw [write_country_files, writeLoop_ok by_country country_map failAt
      by_country.length 0 fs [] hall]
    simp
  rw [hrun fs0, hrun (applyWrites fs0 (writesOf by_country country_map))]
  refine ⟨rfl, rfl, ?_⟩
  intro path
  rw [fsFind_applyWrites, fsFind_applyWrites]
  cases h : (writesOf by_country country_map).reverse.find? (fun w => w.1 == path) with
  | some w => rfl
  | none => rfl

/-- Witness for C8: running the sample two-group pipeline twice leaves the
first country's artifact with the same content. -/
theorem write_idempotent_witness :
    (write_country_files [(1, [sampleState1]), (2, [sampleState3])] [(1, "US")]
        (fun _ => false)
        (write_country_files [(1, [sampleState1]), (2, [sampleState3])] [(1, "US")]
          (fun _ => false) []).fs).err = none ∧
    fsFind (write_country_files [(1, [sampleState1]), (2, [sampleState3])] [(1, "US")]
        (fun _ => false)
        (write_country_files [(1, [sampleState1]), (2, [sampleState3])] [(1, "US")]
          (fun _ => false) []).fs).fs "1_US.json" =
      fsFind (write_country_files [(1, [sampleState1]), (2, [sampleState3])] [(1, "US")]
        (fun _ => false) []).fs "1_US.json" := by
  have h := write_idempotent [(1, [sampleState1]), (2, [sampleState3])] [(1, "US")]
    (fun _ => false) [] (by rfl)
  exact ⟨h.1, h.2.2 "1_US.json"⟩

/-- C9: when the write of one group's artifact fails, the run stops with
that error: the outcome carries exactly the writes of the groups before the
failing one (already-written files are kept, no rollback), the progress
lines of those writes only, and the `Io` error is returned to the caller. -/
theorem write_abort_on_failure (pre : List (Nat × List State)) (g : Nat × List State)
    (post : List (Nat × List State)) (country_map : List (Nat × String))
    (failAt : String → Bool) (fs : FSState)
    (hpre : ∀ x ∈ pre, failAt (artifactName country_map x.1) = false)
    (hfail : failAt (artifactName country_map g.1) = true) :
    write_country_files (pre ++ g :: post) country_map failAt fs =
      { fs := applyWrites fs (writesOf pre country_map),
        progress := (List.range pre.length).map
          (fun j => (j + 1) * 100 / (pre ++ g :: post).length),
        err := some ProcessingError.Io } := by
  rw [write_country_files, writeLoop_fail pre g post country_map failAt
    (pre ++ g :: post).length 0 fs [] hpre hfail]
  simp only [List.nil_append]
  refine congrArg (fun l => WriteOutcome.mk (applyWrites fs (writesOf pre country_map))
    l (some ProcessingError.Io)) ?_
  apply List.map_congr_left
  intro j _
  have : 0 + j + 1 = j + 1 := by omega
  rw [this]

/-- Witness for C9: with the second of three groups failing, exactly the
first group's file is written, one progress line is printed, and the run
ends in the `Io` error. -/
theorem write_abort_on_failure_witness :
    write_country_files [(1, [sampleState1]), (5, [sampleState3]), (2, [sampleState2])]
        [(1, "US")] (fun p => p == "5_XX.json") [] =
      { fs := applyWrites [] (writesOf [(1, [sampleState1])] [(1, "US")]),
        progress := (List.range 1).map (fun j => (j + 1) * 100 / 3),
        err := some ProcessingError.Io } := by
  have h := write_abort_on_failure [(1, [sampleState1])] (5, [sampleState3])
    [(2, [sampleState2])] [(1, "US")] (fun p => p == "5_XX.json") []
    (by decide) (by decide)
  simpa using h

/-- C10: groups are never empty (a key only exists once a record with that
country id was appended), so every written artifact is a non-empty JSON
array; the empty input produces no groups, no writes, and a successful
outcome. -/
theorem groups_nonempty_spec :
    (∀ (ss : List State) (k : Nat) (g : List State),
      (k, g) ∈ group_states_by_country ss →
      g ≠ [] ∧ ∃ l, serializeStates g = JsonValue.arr l ∧ l ≠ []) ∧
    group_states_by_country [] = [] ∧
    ∀ (country_map : List (Nat × String)) (failAt : String → Bool) (fs : FSState),
      write_country_files (group_states_by_country []) country_map failAt fs =
        { fs := fs, progress := [], err := none } := by
  refine ⟨?_, rfl, fun country_map failAt fs => rfl⟩
  intro ss k g hmem
  have hf := hmFind_of_mem_nodup _ k g (keys_nodup_group_states ss) hmem
  rw [hmFind_group_states] at hf
  split at hf
  · cases hf
  · rename_i hne
    have hg : g = ss.filter (fun s => s.country_id == k) := by
      injection hf with h
      exact h.symm
    have hgne : g ≠ [] := by
      rw [hg]
      intro hnil
      exact hne (by rw [hnil]; rfl)
    refine ⟨hgne, g.map serializeState, rfl, ?_⟩
    intro hnil
    exact hgne (List.map_eq_nil_iff.mp hnil)

/-- Witness for C10: the sample input's group for country 2 is non-empty and
serializes to a non-empty array. -/
theorem groups_nonempty_spec_witness :
    [sampleState3] ≠ [] ∧
    ∃ l, serializeStates [sampleState3] = JsonValue.arr l ∧ l ≠ [] :=
  groups_nonempty_spec.1 [sampleState1, sampleState2, sampleState3] 2
    [sampleState3] (by decide)

section ParseLemmas

lemma parseState_ok_components (fields : List (String × JsonValue)) (s : State)
    (h : parseState (JsonValue.obj fields) = Except.ok s) :
    reqField fields "id" parseU32 = Except.ok s.id ∧
    reqField fields "country_id" parseU32 = Except.ok s.country_id ∧
    reqField fields "name" parseStr = Except.ok s.name ∧
    parseOptString (objFind fields "state_code") = Except.ok s.state_code ∧
    parseOptString (objFind fields "latitude") = Except.ok s.latitude ∧
    parseOptString (objFind fields "longitude") = Except.ok s.longitude ∧
    parseCities (objFind fields "cities") = Except.ok s.cities := by
  simp only [parseState] at h
  split at h
  · injection h with h2
    subst h2
    simp_all
  all_goals cases h

lemma parseState_error_json (j : JsonValue) (e : ProcessingError)
    (h : parseState j = Except.error e) : e = ProcessingError.Json := by
  cases j with
  | obj fields =>
    simp only [parseState] at h
    split at h
    · cases h
    all_goals
      injection h with h2
      exact h2.symm
  | null => injection h with h2; exact h2.symm
  | bool b => injection h with h2; exact h2.symm
  | num n => injection h with h2; exact h2.symm
  | str s => injection h with h2; exact h2.symm
  | arr xs => injection h with h2; exact h2.symm

lemma parseCity_ok_components (fields : List (String × JsonValue)) (c : City)
    (h : parseCity (JsonValue.obj fields) = Except.ok c) :
    reqField fields "id" parseU32 = Except.ok c.id ∧
    reqField fields "name" parseStr = Except.ok c.name ∧
    parseOptString (objFind fields "latitude") = Except.ok c.latitude ∧
    parseOptString (objFind fields "longitude") = Except.ok c.longitude := by
  simp only [parseCity] at h
  split at h
  · injection h with h2
    subst h2
    simp_all
  all_goals cases h

lemma parseCity_error_json (j : JsonValue) (e : ProcessingError)
    (h : parseCity j = Except.error e) : e = ProcessingError.Json := by
  cases j with
  | obj fields =>
    simp only [parseCity] at h
    split at h
    · cases h
    all_goals
      injection h with h2
      exact h2.symm
  | null => injection h with h2; exact h2.symm
  | bool b => injection h with h2; exact h2.symm
  | num n => injection h with h2; exact h2.symm
  | str s => injection h with h2; exact h2.symm
  | arr xs => injection h with h2; exact h2.symm

end ParseLemmas

/-- C6: schema leniency and strictness of the region parse — for a State
object whose three required fields are well-typed, each optional field is
parsed independently by its own field parser, so that any subset of
`state_code`/`latitude`/`longitude` (and of a City's coordinates) may be
missing and the record still parses, with exactly the missing ones absent:
a missing optional key parses to the absent value
(`parseOptString none = ok none`, `parseCities none = ok []`) while
present well-typed keys keep their values; a missing `id`, `country_id` or
`name` on a State, or a missing `id` or `name` on a City, makes the parse
fail with the `Malformed` (`Json`) error; and whenever any field of either
struct is wrongly typed (its field parser rejects it), the whole parse
fails — indeed every parse failure carries the `Malformed` error. -/
theorem parse_schema_spec :
    (∀ (fields : List (String × JsonValue)) (id cid : Nat) (name : String)
      (sc lat lon : Option String) (cts : List City),
      objFind fields "id" = some (JsonValue.num (Int.ofNat id)) → id < 4294967296 →
      objFind fields "country_id" = some (JsonValue.num (Int.ofNat cid)) →
      cid < 4294967296 →
      objFind fields "name" = some (JsonValue.str name) →
      parseOptString (objFind fields "state_code") = Except.ok sc →
      parseOptString (objFind fields "latitude") = Except.ok lat →
      parseOptString (objFind fields "longitude") = Except.ok lon →
      parseCities (objFind fields "cities") = Except.ok cts →
      parseState (JsonValue.obj fields) = Except.ok
        { id := id, country_id := cid, name := name, state_code := sc,
          latitude := lat, longitude := lon, cities := cts }) ∧
    parseOptString none = Except.ok none ∧
    parseCities none = Except.ok [] ∧
    (∀ (fields : List (String × JsonValue)) (id : Nat) (name : String)
      (lat lon : Option String),
      objFind fields "id" = some (JsonValue.num (Int.ofNat id)) → id < 4294967296 →
      objFind fields "name" = some (JsonValue.str name) →
      parseOptString (objFind fields "latitude") = Except.ok lat →
      parseOptString (objFind fields "longitude") = Except.ok lon →
      parseCity (JsonValue.obj fields) = Except.ok
        { id := id, name := name, latitude := lat, longitude := lon }) ∧
    (∀ fields, objFind fields "id" = none →
      parseState (JsonValue.obj fields) = Except.error ProcessingError.Json) ∧
    (∀ fields, objFind fields "country_id" = none →
      parseState (JsonValue.obj fields) = Except.error ProcessingError.Json) ∧
    (∀ fields, objFind fields "name" = none →
      parseState (JsonValue.obj fields) = Except.error ProcessingError.Json) ∧
    (∀ fields, objFind fields "id" = none →
      parseCity (JsonValue.obj fields) = Except.error ProcessingError.Json) ∧
    (∀ fields, objFind fields "name" = none →
      parseCity (JsonValue.obj fields) = Except.error ProcessingError.Json) ∧
    (∀ fields,
      (reqField fields "id" parseU32 = Except.error ProcessingError.Json ∨
       reqField fields "country_id" parseU32 = Except.error ProcessingError.Json ∨
       reqField fields "name" parseStr = Except.error ProcessingError.Json ∨
       parseOptString (objFind fields "state_code") =
         Except.error ProcessingError.Json ∨
       parseOptString (objFind fields "latitude") =
         Except.error ProcessingError.Json ∨
       parseOptString (objFind fields "longitude") =
         Except.error ProcessingError.Json ∨
       parseCities (objFind fields "cities") = Except.error ProcessingError.Json) →
      parseState (JsonValue.obj fields) = Except.error ProcessingError.Json) ∧
    (∀ fields,
      (reqField fields "id" parseU32 = Except.error ProcessingError.Json ∨
       reqField fields "name" parseStr = Except.error ProcessingError.Json ∨
       parseOptString (objFind fields "latitude") =
         Except.error ProcessingError.Json ∨
       parseOptString (objFind fields "longitude") =
         Except.error ProcessingError.Json) →
      parseCity (JsonValue.obj fields) = Except.error ProcessingError.Json) := by
  have hD1 : ∀ fields,
      (reqField fields "id" parseU32 = Except.error ProcessingError.Json ∨
       reqField fields "country_id" parseU32 = Except.error ProcessingError.Json ∨
       reqField fields "name" parseStr = Except.error ProcessingError.Json ∨
       parseOptString (objFind fields "state_code") =
         Except.error ProcessingError.Json ∨
       parseOptString (objFind fields "latitude") =
         Except.error ProcessingError.Json ∨
       parseOptString (objFind fields "longitude") =
         Except.error ProcessingError.Json ∨
       parseCities (objFind fields "cities") = Except.error ProcessingError.Json) →
      parseState (JsonValue.obj fields) = Except.error ProcessingError.Json := by
    intro fields hdis
    cases hr : parseState (JsonValue.obj fields) with
    | ok s =>
      exfalso
      have comps := parseState_ok_components fields s hr
      rcases hdis with h | h | h | h | h | h | h <;> simp_all
    | error e =>
      exact congrArg Except.error (parseState_error_json _ e hr)
  have hD2 : ∀ fields,
      (reqField fields "id" parseU32 = Except.error ProcessingError.Json ∨
       reqField fields "name" parseStr = Except.error ProcessingError.Json ∨
       parseOptString (objFind fields "latitude") =
         Except.error ProcessingError.Json ∨
       parseOptString (objFind fields "longitude") =
         Except.error ProcessingError.Json) →
      parseCity (JsonValue.obj fields) = Except.error ProcessingError.Json := by
    intro fields hdis
    cases hr : parseCity (JsonValue.obj fields) with
    | ok c =>
      exfalso
      have comps := parseCity_ok_components fields c hr
      rcases hdis with h | h | h | h <;> simp_all
    | error e =>
      exact congrArg Except.error (parseCity_error_json _ e hr)
  refine ⟨?_, rfl, rfl, ?_, ?_, ?_, ?_, ?_, ?_, hD1, hD2⟩
  · intro fields id cid name sc lat lon cts hId hIdLt hCid hCidLt hName hSc hLat
      hLon hCts
    simp [parseState, reqField, hId, hCid, hName, hSc, hLat, hLon, hCts,
      parseU32, parseStr, hIdLt, hCidLt]
  · intro fields id name lat lon hId hIdLt hName hLat hLon
    simp [parseCity, reqField, hId, hName, hLat, hLon,
      parseU32, parseStr, hIdLt]
  · intro fields h
    exact hD1 fields (Or.inl (by simp [reqField, h]))
  · intro fields h
    exact hD1 fields (Or.inr (Or.inl (by simp [reqField, h])))
  · intro fields h
    exact hD1 fields (Or.inr (Or.inr (Or.inl (by simp [reqField, h]))))
  · intro fields h
    exact hD2 fields (Or.inl (by simp [reqField, h]))
  · intro fields h
    exact hD2 fields (Or.inr (Or.inl (by simp [reqField, h])))

/-- Witness for C6 at a mixed instance: a State object with `state_code`
present but `latitude`, `longitude` and `cities` missing parses, keeping
the present field and leaving exactly the missing ones absent. -/
theorem parse_schema_spec_witness :
    parseState (JsonValue.obj
        [("id", JsonValue.num (Int.ofNat 1)),
         ("country_id", JsonValue.num (Int.ofNat 2)),
         ("name", JsonValue.str "California"),
         ("state_code", JsonValue.str "CA")]) =
      Except.ok
        { id := 1, country_id := 2, name := "California",
          state_code := some "CA", latitude := none, longitude := none,
          cities := [] } :=
  parse_schema_spec.1
    [("id", JsonValue.num (Int.ofNat 1)),
     ("country_id", JsonValue.num (Int.ofNat 2)),
     ("name", JsonValue.str "California"),
     ("state_code", JsonValue.str "CA")]
    1 2 "California" (some "CA") none none []
    rfl (by norm_num) rfl (by norm_num) rfl rfl rfl rfl rfl
